import Mathlib

/-!
Shallow embedding of the audio-analyzer core (src/main.py) and proofs about
it.  The embedding covers:

* the key estimator `estimate_key` (main.py lines 113-214), modelled as a
  function of the chromagram (a 12-row matrix of pitch-class energies);
  matrix entries are `Option ℚ`, with `none` standing for a float NaN
  (`librosa.util.normalize` raises on non-finite input, which the code's
  `except` turns into the sentinel result);
* the loudness estimator `calculate_lufs` (main.py lines 216-287), over
  real-valued samples, with `Real.logb`/`Real.sqrt` standing for
  `np.log10`/`np.sqrt`;
* the duration utilities `get_duration` (lines 75-94) and `format_duration`
  (lines 96-111), over exact rationals, with `none` again standing for NaN.

Float arithmetic is embedded as exact arithmetic on ℚ / ℝ.
-/

/-- Pitch-class names (main.py line 120). -/
def key_names : List String :=
  ["C", "C#", "D", "D#", "E", "F"] ++ ["F#", "G", "G#", "A", "A#", "B"]

/-- The 24 possible key labels: the 12 pitch-class names (major keys) and the
same names with the lower-case m suffix (minor keys). -/
def keyLabels : List String :=
  key_names ++ key_names.map fun s => s ++ "m"

/-- Major-key harmonic template (main.py lines 123-136). -/
def major_template : List ℚ :=
  [1, 0, 0.3, 0, 0.6, 0.4] ++ [0, 0.8, 0, 0.4, 0, 0.2]

/-- Minor-key harmonic template (main.py lines 138-151). -/
def minor_template : List ℚ :=
  [1, 0, 0.3, 0.6, 0, 0.4] ++ [0, 0.8, 0.4, 0, 0.4, 0]

/-- np.finfo(float32).tiny, the default `threshold` of `librosa.util.normalize`
(the chromagram is float32). -/
def tinyF32 : ℚ := 1 / 2 ^ 126

/-- librosa.util.normalize with the default inf-norm (main.py line 157): divide
by the largest absolute value unless it is below the tiny threshold, in which
case divide by 1. -/
def normalizeInf (v : List ℚ) : List ℚ :=
  let maxMag := (v.map fun x => |x|).foldr max 0
  let scale := if maxMag < tinyF32 then 1 else maxMag
  v.map fun x => x / scale

/-- np.roll t i for a 12-element template: entry j of the result is entry
(j - i) mod 12 of t. -/
def rollTemplate (t : List ℚ) (i : ℕ) : List ℚ :=
  (List.range 12).map fun j => t.getD ((j + 12 - i) % 12) 0

/-- np.correlate of two equal-length vectors, entry 0 (mode valid): the dot
product (main.py lines 167-168). -/
def correlate0 (v w : List ℚ) : ℚ := (List.zipWith (fun a b => a * b) v w).sum

/-- Correlation of the normalized chroma vector with each of the 12 rotations
of a template (main.py lines 164-168). -/
def templateCorrs (v t : List ℚ) : List ℚ :=
  (List.range 12).map fun i => correlate0 v (rollTemplate t i)

/-- np.max of a nonempty list (the empty case cannot arise; 0 as a default). -/
def maxVal : List ℚ → ℚ
  | [] => 0
  | [a] => a
  | a :: b :: rest => max a (maxVal (b :: rest))

/-- np.argmax: index of the first occurrence of the maximum value. -/
def argmaxIdx : List ℚ → ℕ
  | [] => 0
  | [_] => 0
  | a :: b :: rest => if maxVal (b :: rest) ≤ a then 0 else argmaxIdx (b :: rest) + 1

/-- Second-best correlation value: the code overwrites the argmax entry with
-inf and takes np.max again (main.py lines 177-180), which equals the maximum
of the list with the argmax entry removed. -/
def secondVal (l : List ℚ) : ℚ := maxVal (l.eraseIdx (argmaxIdx l))

/-- Key and confidence from the time-averaged chroma vector (main.py lines
156-211): normalize, correlate against the 24 rotated templates, pick the
winning mode (ties favour major), blend the three confidence signals with
weights 0.4 / 0.4 / 0.2, scale by 100 and clamp to the 0..100 range. -/
def estimateFromAvg (avg : List ℚ) : String × ℚ :=
  let chroma_norm := normalizeInf avg
  let major_corr := templateCorrs chroma_norm major_template
  let minor_corr := templateCorrs chroma_norm minor_template
  let major_max_idx := argmaxIdx major_corr
  let minor_max_idx := argmaxIdx minor_corr
  let major_max_val := maxVal major_corr
  let minor_max_val := maxVal minor_corr
  let second_major_val := secondVal major_corr
  let second_minor_val := secondVal minor_corr
  if minor_max_val ≤ major_max_val then
    let abs_conf := (major_max_val + 1) / 2
    let rel_conf := (major_max_val - second_major_val) / (major_max_val + 1e-6)
    let mode_conf :=
      (major_max_val - minor_max_val) / (max major_max_val minor_max_val + 1e-6)
    let confidence := (abs_conf * 0.4 + rel_conf * 0.4 + mode_conf * 0.2) * 100
    (key_names.getD major_max_idx "", min (max confidence 0) 100)
  else
    let abs_conf := (minor_max_val + 1) / 2
    let rel_conf := (minor_max_val - second_minor_val) / (minor_max_val + 1e-6)
    let mode_conf :=
      (minor_max_val - major_max_val) / (max minor_max_val major_max_val + 1e-6)
    let confidence := (abs_conf * 0.4 + rel_conf * 0.4 + mode_conf * 0.2) * 100
    (key_names.getD minor_max_idx "" ++ "m", min (max confidence 0) 100)

/-- Strip the NaN markers (only meaningful when there are none). -/
def toRatMatrix (c : List (List (Option ℚ))) : List (List ℚ) :=
  c.map fun r => r.map fun x => x.getD 0

/-- np.mean of the chromagram across time, axis 1 (main.py line 154). -/
def chromaAvg (m : List (List ℚ)) : List ℚ := m.map fun r => r.sum / r.length

/-- Conditions under which the key-estimation body raises and the `except`
handler fires (main.py lines 212-214): a NaN anywhere in the matrix, or an
empty matrix (no time frames, or no rows), both of which make
`librosa.util.normalize` (resp. np.max) raise on the NaN time-average. -/
def keyFailure (c : List (List (Option ℚ))) : Bool :=
  c.any (fun r => r.any fun x => x.isNone) || c.any (fun r => r.isEmpty) || c.isEmpty

/-- estimate_key (main.py lines 113-214) as a function of the chromagram:
on any numerical failure return the sentinel, otherwise run the template
matching on the time-averaged chroma vector.  Total by construction, so it
never raises. -/
def estimate_key (c : List (List (Option ℚ))) : String × ℚ :=
  if keyFailure c then ("Unknown", 0) else estimateFromAvg (chromaAvg (toRatMatrix c))

/-- get_duration (main.py lines 75-94): number of samples divided by the
sample rate; 0.0 for a non-positive sample rate or a negative result. -/
def get_duration (n : ℕ) (sr : ℤ) : ℚ :=
  if sr ≤ 0 then 0
  else
    let d : ℚ := (n : ℚ) / (sr : ℚ)
    if d < 0 then 0 else d

/-- Python round to int: round half to even. -/
def pyRound (q : ℚ) : ℤ :=
  let f := ⌊q⌋
  let r := q - f
  if r < 1 / 2 then f
  else if 1 / 2 < r then f + 1
  else if f % 2 = 0 then f else f + 1

/-- Python format 02d: decimal digits, zero-padded on the left to width 2. -/
def pad2 (n : ℕ) : String := if n < 10 then "0" ++ toString n else toString n

/-- The minutes and seconds fields rendered by format_duration: total rounded
seconds floor-divided by 60, and the remainder (main.py lines 105-107). -/
def mmssFields (s : ℚ) : ℕ × ℕ :=
  ((pyRound s).toNat / 60, (pyRound s).toNat % 60)

/-- format_duration (main.py lines 96-111): "00:00" for NaN (modelled as
`none`) or negative input, otherwise the zero-padded mm:ss rendering of the
rounded total seconds. -/
def format_duration : Option ℚ → String
  | none => "00:00"
  | some s =>
    if s < 0 then "00:00"
    else pad2 (mmssFields s).1 ++ ":" ++ pad2 (mmssFields s).2

/-- Mean of a list of reals (np.mean). -/
noncomputable def meanR (l : List ℝ) : ℝ := l.sum / l.length

/-- dB conversion used throughout calculate_lufs (main.py lines 239 and 252):
20 * log10(rms + 1e-8). -/
noncomputable def dB (r : ℝ) : ℝ := 20 * Real.logb 10 (r + 1e-8)

/-- RMS of a sample list: sqrt of the mean of the squares (main.py lines 238
and 248). -/
noncomputable def rmsOf (y : List ℝ) : ℝ := Real.sqrt (meanR (y.map fun x => x ^ 2))

/-- block_length = int(0.4 * sr) (main.py line 231); Python int() truncates
toward zero, so this is (2 * sr) t-divided by 5. -/
def blockLengthOf (sr : ℤ) : ℤ := (2 * sr).tdiv 5

/-- hop_length = block_length // 2 (main.py line 232), Python floor division. -/
def hopLengthOf (sr : ℤ) : ℤ := (blockLengthOf sr).fdiv 2

/-- librosa.util.frame: the 1 + (len - bl) / hop complete overlapping blocks;
samples beyond the final full block are discarded (main.py line 244). -/
def frames (y : List ℝ) (bl hop : ℕ) : List (List ℝ) :=
  (List.range (1 + (y.length - bl) / hop)).map fun j => (y.drop (j * hop)).take bl

open Classical in
/-- Boolean strict-greater test on reals, used for the numpy comparisons
block_db > -70 and block_db > relative_threshold. -/
noncomputable def gtb (c x : ℝ) : Bool := decide (c < x)

/-- The gated averaging stage of calculate_lufs (main.py lines 255-283), as a
function of the per-block dB list: absolute gate at -70 dB (return -70 if
nothing survives), relative threshold = mean of the surviving blocks minus 10,
relative gate applied to the full block list (exactly as in the code), mean of
the survivors minus 10, clamped to the -70..0 range. -/
noncomputable def gatedLoudness (block_db : List ℝ) : ℝ :=
  let valid_db := block_db.filter (gtb (-70))
  if valid_db.isEmpty then -70
  else
    let relative_threshold := meanR valid_db - 10
    let final_db := block_db.filter (gtb relative_threshold)
    if final_db.isEmpty then -70
    else max (min (meanR final_db - 10) 0) (-70)

/-- The gated averaging stage as the specification words it: the relative gate
is applied to the blocks that already passed the absolute gate, so a block
at or below -70 dB never enters the final mean. -/
noncomputable def gatedLoudnessSpec (block_db : List ℝ) : ℝ :=
  let valid_db := block_db.filter (gtb (-70))
  if valid_db.isEmpty then -70
  else
    let relative_threshold := meanR valid_db - 10
    let final_db := valid_db.filter (gtb relative_threshold)
    if final_db.isEmpty then -70
    else max (min (meanR final_db - 10) 0) (-70)

/-- calculate_lufs (main.py lines 216-287): sentinel -70 for an empty buffer;
whole-signal RMS fallback when the buffer is shorter than one block; the
framed, gated path otherwise.  A hop length below 1 makes librosa.util.frame
raise, which the except handler (line 285) turns into -70; this is the path
taken by every non-positive sample rate on a non-empty buffer. -/
noncomputable def calculate_lufs (y : List ℝ) (sr : ℤ) : ℝ :=
  if y.length = 0 then -70
  else if (y.length : ℤ) < blockLengthOf sr then
    max (min (dB (rmsOf y) - 10) 0) (-70)
  else if hopLengthOf sr < 1 then -70
  else
    gatedLoudness
      ((frames y (blockLengthOf sr).toNat (hopLengthOf sr).toNat).map fun b => dB (rmsOf b))

theorem correlate0_of_forall_zero {v : List ℚ} (h : ∀ x ∈ v, x = 0) :
    ∀ w : List ℚ, correlate0 v w = 0 := by
  induction v with
  | nil => intro w; cases w <;> simp [correlate0]
  | cons a v ih =>
    intro w
    cases w with
    | nil => simp [correlate0]
    | cons b w =>
      have ha : a = 0 := h a (by simp)
      have hv : ∀ x ∈ v, x = 0 := fun x hx => h x (by simp [hx])
      have := ih hv w
      simp [correlate0, List.zipWith] at this ⊢
      simp [ha, this]

theorem foldr_max_zero {l : List ℚ} (h : ∀ x ∈ l, x = 0) : l.foldr max 0 = 0 := by
  induction l with
  | nil => rfl
  | cons a t ih =>
    have ha : a = 0 := h a (by simp)
    have ht : ∀ x ∈ t, x = 0 := fun x hx => h x (by simp [hx])
    rw [List.foldr_cons, ih ht, ha]
    simp

theorem normalizeInf_of_all_zero {v : List ℚ} (h : ∀ x ∈ v, x = 0) :
    normalizeInf v = v := by
  have habs : ∀ x ∈ v.map fun x => |x|, x = 0 := by
    intro x hx
    rw [List.mem_map] at hx
    obtain ⟨a, ha, rfl⟩ := hx
    rw [h a ha]
    simp
  simp only [normalizeInf]
  rw [foldr_max_zero habs, if_pos (by norm_num [tinyF32])]
  simp

theorem maxVal_replicate_zero : ∀ n : ℕ, maxVal (List.replicate n (0 : ℚ)) = 0
  | 0 => rfl
  | 1 => rfl
  | (n + 2) => by
    rw [List.replicate_succ, List.replicate_succ, maxVal, ← List.replicate_succ,
      maxVal_replicate_zero (n + 1)]
    simp

theorem argmaxIdx_replicate_zero : ∀ n : ℕ, argmaxIdx (List.replicate n (0 : ℚ)) = 0
  | 0 => rfl
  | 1 => rfl
  | (n + 2) => by
    rw [List.replicate_succ, List.replicate_succ, argmaxIdx, ← List.replicate_succ,
      maxVal_replicate_zero (n + 1)]
    simp

theorem secondVal_replicate_zero {n : ℕ} (h : 1 ≤ n) :
    secondVal (List.replicate n (0 : ℚ)) = 0 := by
  obtain ⟨m, rfl⟩ : ∃ m, n = m + 1 := ⟨n - 1, by omega⟩
  rw [secondVal, argmaxIdx_replicate_zero, List.replicate_succ, List.eraseIdx_cons_zero]
  exact maxVal_replicate_zero m

theorem templateCorrs_all_zero {v : List ℚ} (h : ∀ x ∈ v, x = 0) (t : List ℚ) :
    templateCorrs v t = List.replicate 12 0 := by
  rw [templateCorrs]
  have hc : ∀ i : ℕ, correlate0 v (rollTemplate t i) = 0 := fun i =>
    correlate0_of_forall_zero h _
  simp only [hc, List.map_const', List.length_range]

theorem estimateFromAvg_zero12 :
    estimateFromAvg (List.replicate 12 (0 : ℚ)) = ("C", 20) := by
  have h12 : ∀ x ∈ List.replicate 12 (0 : ℚ), x = 0 := fun x hx =>
    List.eq_of_mem_replicate hx
  simp only [estimateFromAvg]
  rw [normalizeInf_of_all_zero h12, templateCorrs_all_zero h12 major_template,
    templateCorrs_all_zero h12 minor_template, maxVal_replicate_zero 12,
    argmaxIdx_replicate_zero 12, secondVal_replicate_zero (by norm_num : (1 : ℕ) ≤ 12)]
  rw [if_pos (le_refl (0 : ℚ))]
  norm_num [key_names]

theorem pyRound_floor_le (q : ℚ) : ⌊q⌋ ≤ pyRound q := by
  rw [pyRound]
  split_ifs <;> omega

theorem pyRound_le_floor_add_one (q : ℚ) : pyRound q ≤ ⌊q⌋ + 1 := by
  rw [pyRound]
  split_ifs <;> omega

theorem abs_sub_pyRound_le (q : ℚ) : |q - (pyRound q : ℚ)| ≤ 1 / 2 := by
  have hfl : (⌊q⌋ : ℚ) ≤ q := Int.floor_le q
  have hfu : q < (⌊q⌋ : ℚ) + 1 := Int.lt_floor_add_one q
  rw [pyRound]
  split_ifs with h1 h2 h3 <;> rw [abs_le] <;> push_cast <;> constructor <;> linarith

theorem pyRound_mono {a b : ℚ} (hab : a ≤ b) : pyRound a ≤ pyRound b := by
  rcases lt_or_eq_of_le (Int.floor_le_floor hab) with h | h
  · calc pyRound a ≤ ⌊a⌋ + 1 := pyRound_le_floor_add_one a
      _ ≤ ⌊b⌋ := by omega
      _ ≤ pyRound b := pyRound_floor_le b
  · have hr : a - (⌊a⌋ : ℚ) ≤ b - (⌊b⌋ : ℚ) := by
      rw [h]; linarith
    rw [pyRound, pyRound, h]
    split_ifs <;> first | omega | (exfalso; rw [h] at hr; linarith)

theorem pyRound_intCast (n : ℤ) : pyRound (n : ℚ) = n := by
  rw [pyRound]
  have h0 : ⌊(n : ℚ)⌋ = n := Int.floor_intCast n
  rw [h0]
  have : (n : ℚ) - (n : ℚ) = 0 := by ring
  rw [this, if_pos (by norm_num)]

theorem pyRound_nonneg {q : ℚ} (h : 0 ≤ q) : 0 ≤ pyRound q := by
  have := pyRound_floor_le q
  have h0 : 0 ≤ ⌊q⌋ := Int.floor_nonneg.mpr h
  omega

theorem get_duration_of_pos {sr : ℤ} (hsr : 0 < sr) (n : ℕ) :
    get_duration n sr = (n : ℚ) / (sr : ℚ) := by
  rw [get_duration, if_neg (by omega)]
  have hnn : (0 : ℚ) ≤ (n : ℚ) / (sr : ℚ) :=
    div_nonneg (by positivity) (by exact_mod_cast hsr.le)
  simp [not_lt.mpr hnn]

/-- C7: get_duration returns exactly sampleCount / sampleRate when the rate is
positive (in particular 441000 samples at 44100 Hz give 10.0 s), and returns
0.0 for a non-positive sample rate. -/
theorem C7_get_duration_contract :
    (∀ (n : ℕ) (sr : ℤ), 0 < sr → get_duration n sr = (n : ℚ) / (sr : ℚ)) ∧
    (∀ (n : ℕ) (sr : ℤ), sr ≤ 0 → get_duration n sr = 0) ∧
    get_duration 441000 44100 = 10 := by
  refine ⟨?_, ?_, ?_⟩
  · intro n sr h
    exact get_duration_of_pos h n
  · intro n sr h
    simp [get_duration, h]
  · norm_num [get_duration]

/-- Witness for C7 at the concrete input 441000 samples, 44100 Hz. -/
theorem C7_get_duration_contract_witness :
    0 < (44100 : ℤ) ∧ get_duration 441000 44100 = (441000 : ℚ) / (44100 : ℚ) :=
  ⟨by norm_num, C7_get_duration_contract.1 441000 44100 (by norm_num)⟩

theorem pad2_lt_sixty_len : ∀ m : ℕ, m < 60 → (pad2 m).length = 2 := by decide

theorem mmss_seconds_lt_sixty (s : ℚ) : (mmssFields s).2 < 60 := by
  simp [mmssFields]
  omega

/-- C8: for finite non-negative seconds, format_duration renders the rounded
total (within half a second of the input) as zero-padded minutes, a colon and
a two-digit seconds field below 60; invalid input (NaN, negative) renders as
"00:00"; the concrete examples 10.0, 125.6 and NaN behave as claimed, and the
minutes field is not reduced modulo 60 (6000 s renders as "100:00"). -/
theorem C8_format_duration_contract :
    (∀ s : ℚ, 0 ≤ s →
      format_duration (some s) = pad2 (mmssFields s).1 ++ ":" ++ pad2 (mmssFields s).2 ∧
      |s - (pyRound s : ℚ)| ≤ 1 / 2 ∧
      (mmssFields s).2 < 60 ∧
      (pad2 (mmssFields s).2).length = 2) ∧
    (∀ s : ℚ, s < 0 → format_duration (some s) = "00:00") ∧
    format_duration none = "00:00" ∧
    format_duration (some 10) = "00:10" ∧
    format_duration (some 125.6) = "02:06" ∧
    format_duration (some 6000) = "100:00" := by
  refine ⟨?_, ?_, rfl, ?_, ?_, ?_⟩
  · intro s hs
    refine ⟨?_, abs_sub_pyRound_le s, mmss_seconds_lt_sixty s,
      pad2_lt_sixty_len _ (mmss_seconds_lt_sixty s)⟩
    rw [format_duration, if_neg (not_lt.mpr hs)]
  · intro s hs
    rw [format_duration, if_pos hs]
  · norm_num [format_duration, mmssFields, pyRound]
    decide
  · norm_num [format_duration, mmssFields, pyRound]
    decide
  · norm_num [format_duration, mmssFields, pyRound]
    decide

/-- Witness for C8 at the concrete non-negative input 125.6 and the concrete
negative input -1. -/
theorem C8_format_duration_contract_witness :
    ((0 : ℚ) ≤ 125.6 ∧
      format_duration (some 125.6) =
        pad2 (mmssFields 125.6).1 ++ ":" ++ pad2 (mmssFields 125.6).2) ∧
    ((-1 : ℚ) < 0 ∧ format_duration (some (-1)) = "00:00") :=
  ⟨⟨by norm_num, (C8_format_duration_contract.1 125.6 (by norm_num)).1⟩,
   ⟨by norm_num, C8_format_duration_contract.2.1 (-1) (by norm_num)⟩⟩

theorem format_some_congr {s t : ℚ} (hs : 0 ≤ s) (ht : 0 ≤ t)
    (h : pyRound s = pyRound t) :
    format_duration (some s) = format_duration (some t) := by
  rw [format_duration, format_duration, if_neg (not_lt.mpr hs), if_neg (not_lt.mpr ht)]
  simp [mmssFields, h]

/-- C10: exact half-second inputs round half to even (Python round), so
k + 0.5 renders as k seconds for even k and as k + 1 seconds for odd k;
10.5 renders as "00:10" and 11.5 as "00:12". -/
theorem C10_format_bankers_rounding :
    (∀ k : ℕ, pyRound ((k : ℚ) + 1 / 2) =
      if k % 2 = 0 then (k : ℤ) else (k : ℤ) + 1) ∧
    (∀ k : ℕ, format_duration (some ((k : ℚ) + 1 / 2)) =
      format_duration (some (if k % 2 = 0 then (k : ℚ) else (k : ℚ) + 1))) ∧
    format_duration (some 10.5) = "00:10" ∧
    format_duration (some 11.5) = "00:12" := by
  have hround : ∀ k : ℕ, pyRound ((k : ℚ) + 1 / 2) =
      if k % 2 = 0 then (k : ℤ) else (k : ℤ) + 1 := by
    intro k
    have hfl : ⌊(k : ℚ) + 1 / 2⌋ = (k : ℤ) := by
      rw [show ((k : ℚ) + 1 / 2) = ((k : ℤ) : ℚ) + 1 / 2 by push_cast; ring,
        Int.floor_int_add]
      norm_num
    rw [pyRound, hfl]
    have hr : (k : ℚ) + 1 / 2 - ((k : ℤ) : ℚ) = 1 / 2 := by push_cast; ring
    rw [hr, if_neg (by norm_num), if_neg (by norm_num)]
    by_cases hk : k % 2 = 0
    · have hk2 : (k : ℤ) % 2 = 0 := by omega
      rw [if_pos hk2, if_pos hk]
    · have hk2 : ¬((k : ℤ) % 2 = 0) := by omega
      rw [if_neg hk2, if_neg hk]
  refine ⟨hround, ?_, ?_, ?_⟩
  · intro k
    by_cases hk : k % 2 = 0
    · refine format_some_congr (by positivity) (by positivity) ?_
      rw [hround k, if_pos hk, if_pos hk]
      rw [show ((k : ℚ)) = (((k : ℤ)) : ℚ) by push_cast; ring, pyRound_intCast]
    · refine format_some_congr (by positivity) (by positivity) ?_
      rw [hround k, if_neg hk, if_neg hk]
      rw [show ((k : ℚ) + 1) = (((k : ℤ) + 1 : ℤ) : ℚ) by push_cast; ring, pyRound_intCast]
  · norm_num [format_duration, mmssFields, pyRound]
    decide
  · norm_num [format_duration, mmssFields, pyRound]
    decide

/-- C9: for a fixed positive sample rate, the total seconds denoted by the
minutes and seconds fields that format_duration renders for
get_duration n sr is non-decreasing in the sample count n. -/
theorem C9_roundtrip_monotone :
    ∀ sr : ℤ, 0 < sr → ∀ n1 n2 : ℕ, n1 ≤ n2 →
      60 * (mmssFields (get_duration n1 sr)).1 + (mmssFields (get_duration n1 sr)).2 ≤
        60 * (mmssFields (get_duration n2 sr)).1 + (mmssFields (get_duration n2 sr)).2 := by
  intro sr hsr n1 n2 hn
  have hmm : ∀ s : ℚ, 60 * (mmssFields s).1 + (mmssFields s).2 = (pyRound s).toNat := by
    intro s
    simp [mmssFields]
    omega
  rw [hmm, hmm]
  have hd : get_duration n1 sr ≤ get_duration n2 sr := by
    rw [get_duration_of_pos hsr n1, get_duration_of_pos hsr n2]
    have hc : (0 : ℚ) < (sr : ℚ) := by exact_mod_cast hsr
    exact (div_le_div_iff_of_pos_right hc).mpr (by exact_mod_cast hn)
  have := pyRound_mono hd
  omega

/-- Witness for C9 at the concrete rate 44100 Hz and sample counts 0 and 441000. -/
theorem C9_roundtrip_monotone_witness :
    0 < (44100 : ℤ) ∧ (0 : ℕ) ≤ 441000 ∧
      60 * (mmssFields (get_duration 0 44100)).1 + (mmssFields (get_duration 0 44100)).2 ≤
        60 * (mmssFields (get_duration 441000 44100)).1 +
          (mmssFields (get_duration 441000 44100)).2 :=
  ⟨by norm_num, by norm_num,
    C9_roundtrip_monotone 44100 (by norm_num) 0 441000 (by norm_num)⟩

/-- C1 (amended): on every input that makes the key-estimation body fail
numerically (a NaN in the matrix or an empty matrix), estimate_key returns
the sentinel pair; the sentinel label the code uses is "Unknown" (capital U,
main.py line 214), not "unknown".  The embedding is a total function, so the
estimator never raises. -/
theorem C1_estimate_key_failure_sentinel :
    ∀ c : List (List (Option ℚ)), keyFailure c = true →
      estimate_key c = ("Unknown", 0) := by
  intro c h
  simp [estimate_key, h]

/-- Witness for C1 at a concrete 12-by-1 chromagram whose entries are NaN. -/
theorem C1_estimate_key_failure_sentinel_witness :
    keyFailure (List.replicate 12 [(none : Option ℚ)]) = true ∧
      estimate_key (List.replicate 12 [(none : Option ℚ)]) = ("Unknown", 0) :=
  ⟨by decide, C1_estimate_key_failure_sentinel _ (by decide)⟩

/-- C1 counterexample: on a 12-by-1 chromagram containing a NaN the code
returns the label "Unknown", which differs from the label "unknown" stated by
the claim (strings are case-sensitive). -/
theorem C1_cex_sentinel_capitalisation :
    estimate_key (List.replicate 12 [(none : Option ℚ)]) = ("Unknown", 0) ∧
      ("Unknown" : String) ≠ "unknown" := by
  constructor
  · decide
  · decide

theorem keyFailure_all_zero (T : ℕ) (hT : 1 ≤ T) :
    keyFailure (List.replicate 12 (List.replicate T (some (0 : ℚ)))) = false := by
  simp [keyFailure, List.any_eq_true, List.mem_replicate, List.isEmpty_iff,
    List.replicate_eq_nil_iff]
  omega

theorem chromaAvg_all_zero (T : ℕ) :
    chromaAvg (toRatMatrix (List.replicate 12 (List.replicate T (some (0 : ℚ))))) =
      List.replicate 12 (0 : ℚ) := by
  rw [toRatMatrix, List.map_replicate, List.map_replicate]
  rw [chromaAvg, List.map_replicate]
  have h1 : Option.getD (some (0 : ℚ)) 0 = 0 := rfl
  rw [h1]
  have h2 : (List.replicate T (0 : ℚ)).sum / (List.replicate T (0 : ℚ)).length = 0 := by
    simp [List.sum_replicate]
  rw [h2]

/-- C2 (amended): an all-zero chromagram does not fail (normalize keeps the
zero vector because the max magnitude is below the tiny threshold): every
correlation is 0, the tie goes to major with argmax root 0, so the label is
the degenerate-tie default "C"; and the confidence is exactly 20.0, not 0.0,
because the absolute-confidence term contributes (0 + 1)/2 * 0.4 * 100 = 20
even when the best correlation is 0.  It is never NaN. -/
theorem C2_all_zero_chroma_default :
    ∀ T : ℕ, 1 ≤ T →
      estimate_key (List.replicate 12 (List.replicate T (some (0 : ℚ)))) = ("C", 20) := by
  intro T hT
  rw [estimate_key, keyFailure_all_zero T hT]
  simp only [Bool.false_eq_true, if_false]
  rw [chromaAvg_all_zero T, estimateFromAvg_zero12]

/-- Witness for C2 at a concrete 12-by-1 all-zero chromagram. -/
theorem C2_all_zero_chroma_default_witness :
    1 ≤ 1 ∧
      estimate_key (List.replicate 12 (List.replicate 1 (some (0 : ℚ)))) = ("C", 20) :=
  ⟨le_refl 1, C2_all_zero_chroma_default 1 (le_refl 1)⟩

/-- C2 counterexample: on the 12-by-1 all-zero chromagram the returned
confidence is 20.0, not 0.0 as the claim states. -/
theorem C2_cex_confidence_not_zero :
    estimate_key (List.replicate 12 (List.replicate 1 (some (0 : ℚ)))) = ("C", 20) ∧
      (20 : ℚ) ≠ 0 := by
  constructor
  · rw [estimate_key, keyFailure_all_zero 1 (le_refl 1)]
    simp only [Bool.false_eq_true, if_false]
    rw [chromaAvg_all_zero 1, estimateFromAvg_zero12]
  · norm_num

theorem argmaxIdx_lt_length : ∀ l : List ℚ, l ≠ [] → argmaxIdx l < l.length
  | [], h => absurd rfl h
  | [_], _ => by simp [argmaxIdx]
  | a :: b :: rest, _ => by
    rw [argmaxIdx]
    split_ifs
    · simp
    · have ih := argmaxIdx_lt_length (b :: rest) (by simp)
      simp only [List.length_cons] at ih ⊢
      omega

theorem templateCorrs_length (v t : List ℚ) : (templateCorrs v t).length = 12 := by
  simp [templateCorrs]

theorem keyName_mem : ∀ i < 12, key_names.getD i "" ∈ keyLabels := by decide

theorem keyNameMinor_mem : ∀ i < 12, key_names.getD i "" ++ "m" ∈ keyLabels := by decide

theorem estimateFromAvg_snd_bounds (avg : List ℚ) :
    0 ≤ (estimateFromAvg avg).2 ∧ (estimateFromAvg avg).2 ≤ 100 := by
  rw [estimateFromAvg]
  split_ifs <;>
    exact ⟨le_min (le_max_right _ _) (by norm_num), min_le_right _ _⟩

theorem estimateFromAvg_fst_mem (avg : List ℚ) : (estimateFromAvg avg).1 ∈ keyLabels := by
  have hmaj : argmaxIdx (templateCorrs (normalizeInf avg) major_template) < 12 := by
    have hne : templateCorrs (normalizeInf avg) major_template ≠ [] := by
      intro hnil
      have := templateCorrs_length (normalizeInf avg) major_template
      rw [hnil] at this
      simp at this
    have := argmaxIdx_lt_length _ hne
    rwa [templateCorrs_length] at this
  have hmin : argmaxIdx (templateCorrs (normalizeInf avg) minor_template) < 12 := by
    have hne : templateCorrs (normalizeInf avg) minor_template ≠ [] := by
      intro hnil
      have := templateCorrs_length (normalizeInf avg) minor_template
      rw [hnil] at this
      simp at this
    have := argmaxIdx_lt_length _ hne
    rwa [templateCorrs_length] at this
  rw [estimateFromAvg]
  split_ifs
  · exact keyName_mem _ hmaj
  · exact keyNameMinor_mem _ hmin

/-- C4 (amended): for every chromagram (12-by-T matrix of finite non-negative
energies, T arbitrary), estimate_key returns a confidence in the closed range
0..100 and a label that is either one of the fixed 24 key names or the
sentinel; the sentinel the code uses is "Unknown" (capital U), not
"unknown". -/
theorem C4_estimate_key_range_and_labels :
    ∀ c : List (List (Option ℚ)),
      (∀ r ∈ c, ∀ x ∈ r, ∃ q : ℚ, x = some q ∧ 0 ≤ q) →
      0 ≤ (estimate_key c).2 ∧ (estimate_key c).2 ≤ 100 ∧
        ((estimate_key c).1 ∈ keyLabels ∨ (estimate_key c).1 = "Unknown") := by
  intro c _
  rw [estimate_key]
  by_cases h : keyFailure c = true
  · rw [if_pos h]
    exact ⟨le_refl 0, by norm_num, Or.inr rfl⟩
  · rw [if_neg h]
    obtain ⟨h1, h2⟩ := estimateFromAvg_snd_bounds (chromaAvg (toRatMatrix c))
    exact ⟨h1, h2, Or.inl (estimateFromAvg_fst_mem _)⟩

/-- Witness for C4 at a concrete well-formed 12-by-1 chromagram. -/
theorem C4_estimate_key_range_and_labels_witness :
    (∀ r ∈ List.replicate 12 [(some (0 : ℚ))], ∀ x ∈ r, ∃ q : ℚ, x = some q ∧ 0 ≤ q) ∧
      (0 ≤ (estimate_key (List.replicate 12 [(some (0 : ℚ))])).2 ∧
        (estimate_key (List.replicate 12 [(some (0 : ℚ))])).2 ≤ 100 ∧
        ((estimate_key (List.replicate 12 [(some (0 : ℚ))])).1 ∈ keyLabels ∨
          (estimate_key (List.replicate 12 [(some (0 : ℚ))])).1 = "Unknown")) := by
  have hwf : ∀ r ∈ List.replicate 12 [(some (0 : ℚ))], ∀ x ∈ r,
      ∃ q : ℚ, x = some q ∧ 0 ≤ q := by
    intro r hr x hx
    rw [List.eq_of_mem_replicate hr] at hx
    simp only [List.mem_singleton] at hx
    exact ⟨0, hx, le_refl 0⟩
  exact ⟨hwf, C4_estimate_key_range_and_labels _ hwf⟩

/-- C4 counterexample: the empty chromagram (a valid degenerate input with no
time frames) makes estimate_key return the label "Unknown", which is neither
in the 24-value key set nor equal to the claimed sentinel "unknown". -/
theorem C4_cex_sentinel_not_in_claimed_set :
    estimate_key (List.replicate 12 ([] : List (Option ℚ))) = ("Unknown", 0) ∧
      ("Unknown" : String) ∉ ("unknown" :: keyLabels) := by
  constructor
  · decide
  · decide

theorem gtb_iff {c x : ℝ} : gtb c x = true ↔ c < x := by
  simp [gtb]

theorem dB_zero : dB 0 = -160 := by
  rw [dB, zero_add]
  have h8 : (1e-8 : ℝ) = ((10 : ℝ) ^ (8 : ℕ))⁻¹ := by norm_num
  rw [h8, Real.logb_inv, Real.logb_pow, Real.logb_self_eq_one (by norm_num : (1 : ℝ) < 10)]
  norm_num

theorem mul_length_lt_sum {l : List ℝ} {c : ℝ} (hne : l ≠ []) (h : ∀ x ∈ l, c < x) :
    c * l.length < l.sum := by
  induction l with
  | nil => exact absurd rfl hne
  | cons a t ih =>
    rcases eq_or_ne t [] with rfl | ht
    · have := h a (by simp)
      simp only [List.sum_cons, List.sum_nil, List.length_cons, List.length_nil]
      push_cast
      linarith
    · have hht : ∀ x ∈ t, c < x := fun x hx => h x (by simp [hx])
      have hs := ih ht hht
      have ha := h a (by simp)
      simp only [List.sum_cons, List.length_cons]
      push_cast
      push_cast at hs
      linarith

theorem sum_le_mul_length {l : List ℝ} {c : ℝ} (h : ∀ x ∈ l, x ≤ c) :
    l.sum ≤ c * l.length := by
  induction l with
  | nil => simp
  | cons a t ih =>
    have hht : ∀ x ∈ t, x ≤ c := fun x hx => h x (by simp [hx])
    have hs := ih hht
    have ha := h a (by simp)
    simp only [List.sum_cons, List.length_cons]
    push_cast
    linarith

theorem length_pos_real {l : List ℝ} (hne : l ≠ []) : (0 : ℝ) < l.length := by
  have : 0 < l.length := List.length_pos.mpr hne
  exact_mod_cast this

theorem lt_meanR_of_forall_lt {l : List ℝ} {c : ℝ} (hne : l ≠ []) (h : ∀ x ∈ l, c < x) :
    c < meanR l := by
  rw [meanR, lt_div_iff₀ (length_pos_real hne)]
  exact mul_length_lt_sum hne h

theorem meanR_lt_of_sum_lt {l : List ℝ} {c : ℝ} (hne : l ≠ []) (h : l.sum < c * l.length) :
    meanR l < c := by
  rw [meanR, div_lt_iff₀ (length_pos_real hne)]
  exact h

theorem sum_eq_meanR_mul {l : List ℝ} (hne : l ≠ []) : l.sum = meanR l * l.length := by
  have h0 : (l.length : ℝ) ≠ 0 := ne_of_gt (length_pos_real hne)
  rw [meanR]
  field_simp

theorem filter_filter_of_imp {l : List ℝ} {p q : ℝ → Bool}
    (h : ∀ a, p a = true → q a = true) : (l.filter q).filter p = l.filter p := by
  induction l with
  | nil => rfl
  | cons a t ih =>
    by_cases hq : q a = true
    · simp only [List.filter_cons, hq, if_true]
      by_cases hp : p a = true
      · simp only [List.filter_cons, hp, if_true, ih]
      · simp only [List.filter_cons, hp, Bool.false_eq_true, if_false, ih]
    · have hp : ¬p a = true := fun hpa => hq (h a hpa)
      simp only [List.filter_cons, hq, hp, Bool.false_eq_true, if_false, ih]

theorem clamp_bounds (x : ℝ) : -70 ≤ max (min x 0) (-70) ∧ max (min x 0) (-70) ≤ 0 :=
  ⟨le_max_right _ _, max_le (min_le_right _ _) (by norm_num)⟩

theorem gatedLoudness_bounds (db : List ℝ) :
    -70 ≤ gatedLoudness db ∧ gatedLoudness db ≤ 0 := by
  simp only [gatedLoudness]
  split_ifs
  · exact ⟨le_refl _, by norm_num⟩
  · exact ⟨le_refl _, by norm_num⟩
  · exact clamp_bounds _

theorem gatedLoudness_eq_neg70_of_forall_le {db : List ℝ}
    (h : ∀ x ∈ db, x ≤ -70) : gatedLoudness db = -70 := by
  rw [gatedLoudness]
  have hnil : db.filter (gtb (-70)) = [] := by
    rw [List.filter_eq_nil_iff]
    intro a ha
    rw [gtb_iff]
    exact not_lt.mpr (h a ha)
  simp [hnil]

theorem rmsOf_eq_zero_of_forall_zero {l : List ℝ} (hl : ∀ x ∈ l, x = 0) :
    rmsOf l = 0 := by
  rw [rmsOf, meanR]
  have hs : (l.map fun x => x ^ 2).sum = 0 := by
    apply List.sum_eq_zero
    intro x hx
    rw [List.mem_map] at hx
    obtain ⟨a, ha, rfl⟩ := hx
    rw [hl a ha]
    norm_num
  rw [hs, zero_div, Real.sqrt_zero]

theorem blockLengthOf_nonpos {sr : ℤ} (h : sr ≤ 0) : blockLengthOf sr ≤ 0 := by
  rw [blockLengthOf]
  have h1 : (0 : ℤ) ≤ -(2 * sr) := by omega
  have h2 := Int.tdiv_nonneg h1 (by norm_num : (0 : ℤ) ≤ 5)
  rw [Int.neg_tdiv] at h2
  omega

/-- C5: calculate_lufs always returns a value in the range -70..0; an empty
buffer returns the silence floor -70 (whatever the sample rate); a
non-positive sample rate on a non-empty buffer makes librosa.util.frame raise
(hop length below 1), so the handler returns -70; and a pure-silence buffer
returns exactly -70 on both the fallback and the framed path. -/
theorem C5_calculate_lufs_contract :
    (∀ (y : List ℝ) (sr : ℤ), -70 ≤ calculate_lufs y sr ∧ calculate_lufs y sr ≤ 0) ∧
    (∀ sr : ℤ, calculate_lufs [] sr = -70) ∧
    (∀ (y : List ℝ) (sr : ℤ), sr ≤ 0 → calculate_lufs y sr = -70) ∧
    (∀ (y : List ℝ) (sr : ℤ), 0 < sr → (∀ x ∈ y, x = 0) → calculate_lufs y sr = -70) := by
  refine ⟨?_, ?_, ?_, ?_⟩
  · intro y sr
    rw [calculate_lufs]
    split_ifs
    · exact ⟨le_refl _, by norm_num⟩
    · exact clamp_bounds _
    · exact ⟨le_refl _, by norm_num⟩
    · exact gatedLoudness_bounds _
  · intro sr
    simp [calculate_lufs]
  · intro y sr hsr
    rcases eq_or_ne y.length 0 with h0 | h0
    · rw [calculate_lufs, if_pos h0]
    · have hbl := blockLengthOf_nonpos hsr
      have hnotshort : ¬((y.length : ℤ) < blockLengthOf sr) := by
        push_neg
        calc blockLengthOf sr ≤ 0 := hbl
          _ ≤ (y.length : ℤ) := by exact_mod_cast Nat.zero_le _
      have hhop : hopLengthOf sr < 1 := by
        rw [hopLengthOf, Int.fdiv_eq_ediv _ (by norm_num : (0 : ℤ) ≤ 2)]
        omega
      rw [calculate_lufs, if_neg h0, if_neg hnotshort, if_pos hhop]
  · intro y sr hsr hz
    rcases eq_or_ne y.length 0 with h0 | h0
    · rw [calculate_lufs, if_pos h0]
    · by_cases hshort : (y.length : ℤ) < blockLengthOf sr
      · rw [calculate_lufs, if_neg h0, if_pos hshort, rmsOf_eq_zero_of_forall_zero hz,
          dB_zero]
        norm_num
      · by_cases hhop : hopLengthOf sr < 1
        · rw [calculate_lufs, if_neg h0, if_neg hshort, if_pos hhop]
        · rw [calculate_lufs, if_neg h0, if_neg hshort, if_neg hhop]
          apply gatedLoudness_eq_neg70_of_forall_le
          intro x hx
          rw [List.mem_map] at hx
          obtain ⟨b, hb, rfl⟩ := hx
          have hbz : ∀ z ∈ b, z = 0 := by
            intro z hzz
            apply hz
            rw [frames, List.mem_map] at hb
            obtain ⟨j, hj, rfl⟩ := hb
            exact List.mem_of_mem_drop (List.mem_of_mem_take hzz)
          rw [rmsOf_eq_zero_of_forall_zero hbz, dB_zero]
          norm_num

/-- Witness for C5: the non-positive rate -3 on the buffer [1], and the
pure-silence buffer [0] at the positive rate 5. -/
theorem C5_calculate_lufs_contract_witness :
    ((-3 : ℤ) ≤ 0 ∧ calculate_lufs [1] (-3) = -70) ∧
      (0 < (5 : ℤ) ∧ (∀ x ∈ ([0] : List ℝ), x = 0) ∧ calculate_lufs [0] 5 = -70) := by
  have hz : ∀ x ∈ ([0] : List ℝ), x = 0 := by
    intro x hx
    simpa using hx
  exact ⟨⟨by norm_num, C5_calculate_lufs_contract.2.2.1 [1] (-3) (by norm_num)⟩,
    ⟨by norm_num, hz, C5_calculate_lufs_contract.2.2.2 [0] 5 (by norm_num) hz⟩⟩

/-- C6 (amended): for a non-empty buffer with fewer samples than one block,
where the block length the code uses is int(0.4 * sampleRate), in other words
(2 * sr) truncated-divided by 5, not the exact real 0.4 * sampleRate, the
estimator returns the whole-signal fallback clamp(20*log10(rms + 1e-8) - 10)
with the clamp range -70..0. -/
theorem C6_short_buffer_fallback :
    ∀ (y : List ℝ) (sr : ℤ), y ≠ [] → (y.length : ℤ) < blockLengthOf sr →
      calculate_lufs y sr = max (min (dB (rmsOf y) - 10) 0) (-70) := by
  intro y sr hne hlt
  have h0 : y.length ≠ 0 := fun h => hne (List.length_eq_zero.mp h)
  rw [calculate_lufs, if_neg h0, if_pos hlt]

/-- Witness for C6 at the one-sample buffer [0] and rate 5 (block length 2). -/
theorem C6_short_buffer_fallback_witness :
    ([0] : List ℝ) ≠ [] ∧ ((([0] : List ℝ).length : ℤ) < blockLengthOf 5) ∧
      calculate_lufs [0] 5 = max (min (dB (rmsOf [0]) - 10) 0) (-70) := by
  have hlt : ((([0] : List ℝ).length : ℤ) < blockLengthOf 5) := by decide
  exact ⟨by simp, hlt, C6_short_buffer_fallback [0] 5 (by simp) hlt⟩

/-- C6 counterexample: the buffer [1] at rate 3 has 1 sample, fewer than the
claimed block of 0.4 * 3 = 1.2 samples, yet the code does not take the
fallback: block_length = int(0.4 * 3) = 1, framing is attempted with
hop_length = 0, librosa.util.frame raises and the handler returns -70, while
the fallback formula would give a value of about -10, far above -70. -/
theorem C6_cex_int_truncation :
    ((1 : ℝ) < 0.4 * 3) ∧
      calculate_lufs [1] 3 = -70 ∧
      max (min (dB (rmsOf [1]) - 10) 0) (-70) ≠ -70 := by
  refine ⟨by norm_num, ?_, ?_⟩
  · have hbl : blockLengthOf 3 = 1 := by decide
    have hhop : hopLengthOf 3 < 1 := by decide
    rw [calculate_lufs, if_neg (by simp), if_neg (by rw [hbl]; simp), if_pos hhop]
  · have hrms : rmsOf [1] = 1 := by
      rw [rmsOf, meanR]
      norm_num
    rw [hrms, dB]
    have hlog : 0 ≤ Real.logb 10 (1 + 1e-8) :=
      Real.logb_nonneg (by norm_num) (by norm_num)
    have h2 : (-10 : ℝ) ≤ min (20 * Real.logb 10 (1 + 1e-8) - 10) 0 :=
      le_min (by linarith) (by norm_num)
    have h3 : (-10 : ℝ) ≤ max (min (20 * Real.logb 10 (1 + 1e-8) - 10) 0) (-70) :=
      le_trans h2 (le_max_left _ _)
    intro hcontra
    rw [hcontra] at h3
    norm_num at h3

/-- C3: in the framed path the returned loudness always equals the value the
specification describes.  The absolute gate fixes the set of blocks whose mean
defines the relative threshold; the code then re-applies the relative gate to
the full block list, but a block at or below -70 dB can pass the relative
gate only when the surviving mean is below -60 dB, and in that case both the
code's mean and the both-gates mean fall below -60, so after subtracting 10
both clamp to -70: the final loudness always equals the clamped mean dB over
the blocks that pass both the absolute and the relative gate, minus 10. -/
theorem C3_two_gate_refinement :
    ∀ block_db : List ℝ, gatedLoudness block_db = gatedLoudnessSpec block_db := by
  intro db
  simp only [gatedLoudness, gatedLoudnessSpec]
  by_cases hv : (List.filter (gtb (-70)) db).isEmpty
  · rw [if_pos hv, if_pos hv]
  · rw [if_neg hv, if_neg hv]
    have hvne : List.filter (gtb (-70)) db ≠ [] := by
      intro hnil
      rw [hnil] at hv
      exact hv rfl
    have hvmem : ∀ x ∈ List.filter (gtb (-70)) db, (-70 : ℝ) < x := by
      intro x hx
      have h2 := (List.mem_filter.mp hx).2
      rwa [gtb_iff] at h2
    set m := meanR (List.filter (gtb (-70)) db) with hm_def
    have hm : (-70 : ℝ) < m := lt_meanR_of_forall_lt hvne hvmem
    by_cases hcase : (-60 : ℝ) ≤ m
    · have himp : ∀ a : ℝ, gtb (m - 10) a = true → gtb (-70) a = true := by
        intro a ha
        rw [gtb_iff] at ha ⊢
        linarith
      rw [(filter_filter_of_imp himp).symm]
    · push_neg at hcase
      have hall : List.filter (gtb (m - 10)) (List.filter (gtb (-70)) db) =
          List.filter (gtb (-70)) db := by
        rw [List.filter_eq_self]
        intro a ha
        rw [gtb_iff]
        have := hvmem a ha
        linarith
      have hspec_ne : ¬(List.filter (gtb (m - 10)) (List.filter (gtb (-70)) db)).isEmpty = true := by
        rw [hall]
        intro h
        exact hvne (List.isEmpty_iff.mp h)
      rw [if_neg hspec_ne, hall]
      have hfinal_ne : List.filter (gtb (m - 10)) db ≠ [] := by
        obtain ⟨v, hvm⟩ := List.exists_mem_of_ne_nil _ hvne
        have hvdb : v ∈ db := (List.mem_filter.mp hvm).1
        have hvfin : v ∈ List.filter (gtb (m - 10)) db := by
          refine List.mem_filter.mpr ⟨hvdb, ?_⟩
          rw [gtb_iff]
          have := hvmem v hvm
          linarith
        intro hnil
        rw [hnil] at hvfin
        exact absurd hvfin (List.not_mem_nil v)
      have hfinal_isemp : ¬(List.filter (gtb (m - 10)) db).isEmpty = true := by
        intro h
        exact hfinal_ne (List.isEmpty_iff.mp h)
      rw [if_neg hfinal_isemp]
      have hfv : List.filter (gtb (-70)) (List.filter (gtb (m - 10)) db) =
          List.filter (gtb (-70)) db := by
        rw [List.filter_filter]
        apply List.filter_congr
        intro a ha
        by_cases h70 : (-70 : ℝ) < a
        · have hth : m - 10 < a := by linarith
          simp [gtb, h70, hth]
        · simp [gtb, h70]
      have hperm := List.filter_append_perm (gtb (-70)) (List.filter (gtb (m - 10)) db)
      have hsum := hperm.sum_eq
      have hlen := hperm.length_eq
      rw [List.sum_append, hfv] at hsum
      rw [List.length_append, hfv] at hlen
      have hrest_le : ∀ x ∈ List.filter (fun x => !gtb (-70) x)
          (List.filter (gtb (m - 10)) db), x ≤ -70 := by
        intro x hx
        have h2 := (List.mem_filter.mp hx).2
        simp only [Bool.not_eq_eq_eq_not, Bool.not_true] at h2
        have h3 : ¬(-70 : ℝ) < x := by
          intro hlt
          rw [← gtb_iff] at hlt
          rw [h2] at hlt
          exact Bool.false_ne_true hlt
        linarith
      have hsv : (List.filter (gtb (-70)) db).sum =
          m * (List.filter (gtb (-70)) db).length := by
        rw [hm_def]
        exact sum_eq_meanR_mul hvne
      have hlv : (0 : ℝ) < (List.filter (gtb (-70)) db).length := length_pos_real hvne
      have hsv_lt : (List.filter (gtb (-70)) db).sum <
          -60 * (List.filter (gtb (-70)) db).length := by
        rw [hsv]
        nlinarith
      have hsr_le : (List.filter (fun x => !gtb (-70) x)
          (List.filter (gtb (m - 10)) db)).sum ≤
            -60 * (List.filter (fun x => !gtb (-70) x)
              (List.filter (gtb (m - 10)) db)).length := by
        have h1 := sum_le_mul_length hrest_le
        have h2 : (0 : ℝ) ≤ (List.filter (fun x => !gtb (-70) x)
            (List.filter (gtb (m - 10)) db)).length := Nat.cast_nonneg _
        nlinarith
      have hfs : (List.filter (gtb (m - 10)) db).sum <
          -60 * (List.filter (gtb (m - 10)) db).length := by
        rw [← hsum]
        have hlen' : ((List.filter (gtb (m - 10)) db).length : ℝ) =
            ((List.filter (gtb (-70)) db).length : ℝ) +
              ((List.filter (fun x => !gtb (-70) x)
                (List.filter (gtb (m - 10)) db)).length : ℝ) := by
          rw [← hlen]
          push_cast
          ring
        rw [hlen']
        linarith
      have hmf : meanR (List.filter (gtb (m - 10)) db) < -60 :=
        meanR_lt_of_sum_lt hfinal_ne hfs
      have hcode_val : max (min (meanR (List.filter (gtb (m - 10)) db) - 10) 0) (-70) =
          -70 := by
        rw [min_eq_left (by linarith)]
        exact max_eq_right (by linarith)
      have hspec_val : max (min (m - 10) 0) (-70) = -70 := by
        rw [min_eq_left (by linarith)]
        exact max_eq_right (by linarith)
      rw [hcode_val, hspec_val]
